import Mathlib

/-!
Shallow embedding of `src/utils/contacts.ts` (apple-mcp): a contact-directory
accessor over an AppleScript automation bridge.  The module exposes three
operations — `getAllNumbers`, `findNumber`, `findContactByPhone` — each of
which first probes Contacts access, then issues a script to the bridge and
post-processes the (dynamically shaped) result in TypeScript.

Modelling choices:
* The bridge is an `Env`: the outcome of the access probe, of the bulk
  enumeration script, of the name-search script (as a function of the
  lowercased search text the code embeds), and of the phone-search script
  (as a function of the normalized search number).  `Except String` models
  a thrown exception.
* The dynamically shaped AppleScript results are `EnumVal` / `StrListVal`
  (single record, list, or null), mirroring the
  `Array.isArray(result) ? result : (result ? [result] : [])` handling,
  including JavaScript truthiness of the scrutinees.
* The AppleScript loops embedded in the TS file are themselves modelled as
  Lean functions over a source `List Person` (`enumScriptGo`,
  `nameScriptGo`, `phoneScriptGo`); `faithfulEnv` is the bridge that runs
  them.  Per-record extraction failures are modelled with `Except Unit`.
* JavaScript string operations (`trim`, `toLowerCase`, `includes`,
  `replace` with the regex class `[^0-9+]`) are given explicit ASCII models.
* Each operation returns its value paired with the list of queries it
  issued to the external source, so that "no query is issued" claims are
  statable.
-/

namespace Contacts

/-- `CONFIG.MAX_CONTACTS` — maximum contacts to process. -/
def MAX_CONTACTS : Nat := 100

/-- `CONFIG.TIMEOUT_MS` — timeout hint for operations (unused by the logic). -/
def TIMEOUT_MS : Nat := 5000

/-- Whitespace recognized by the JavaScript `trim` model (ASCII fragment). -/
def isJsSpace (c : Char) : Bool :=
  c == ' ' || c == '\t' || c == '\n' || c == '\r' || c == '\x0b' || c == '\x0c'

/-- Model of JavaScript `s.trim()`. -/
def jsTrim (s : String) : String :=
  ⟨(((s.data.dropWhile isJsSpace).reverse).dropWhile isJsSpace).reverse⟩

/-- ASCII lowercasing of one character, as done by `toLowerCase`. -/
def lowerChar (c : Char) : Char :=
  if 65 ≤ c.toNat && c.toNat ≤ 90 then Char.ofNat (c.toNat + 32) else c

/-- Model of JavaScript `s.toLowerCase()` (ASCII). -/
def jsToLower (s : String) : String :=
  ⟨s.data.map lowerChar⟩

/-- Does the list start with the given pattern?  (`listStartsWith s t` ↔ t is
an initial segment of s.) -/
def listStartsWith [BEq α] : List α → List α → Bool
  | _, [] => true
  | [], _ :: _ => false
  | a :: as, b :: bs => a == b && listStartsWith as bs

/-- Occurrence of `t` as a contiguous segment of `s`. -/
def listIncludes [BEq α] : List α → List α → Bool
  | [], t => t.isEmpty
  | a :: as, t => listStartsWith (a :: as) t || listIncludes as t

/-- Model of JavaScript `s.includes(t)`. -/
def jsIncludes (s t : String) : Bool :=
  listIncludes s.data t.data

/-- The character class kept by `replace(/[^0-9+]/g, '')`. -/
def keepChar (c : Char) : Bool :=
  c.isDigit || c == '+'

/-- Model of `phoneNumber.replace(/[^0-9+]/g, '')`: the phone normalization
used on the search input (line 181) and on stored values in the fallback
(line 236). -/
def jsReplaceNonPhone (s : String) : String :=
  ⟨s.data.filter keepChar⟩

/-- The `phones` field of a contact record coming back over the bridge:
either a single string or a list of strings (`Array.isArray` dichotomy). -/
inductive ContactPhones where
  | one (s : String)
  | many (ss : List String)
deriving DecidableEq

/-- A contact record as seen by the TypeScript conversion loop: a `name`
field (the empty string doubles as the JavaScript-falsy/absent case) and an
optional `phones` field (`none` models a missing/null field). -/
structure ContactRec where
  name : String
  phones : Option ContactPhones
deriving DecidableEq

/-- Dynamically shaped result of the bulk-enumeration script. -/
inductive EnumVal where
  | nullv
  | single (r : ContactRec)
  | array (rs : List ContactRec)
deriving DecidableEq

/-- Dynamically shaped result of the name-search script. -/
inductive StrListVal where
  | nullv
  | single (s : String)
  | array (ss : List String)
deriving DecidableEq

/-- The queries an operation can issue to the external source. -/
inductive Query where
  | accessProbe
  | enumScriptQ
  | nameScriptQ (searchText : String)
  | phoneScriptQ (searchPhone : String)
deriving DecidableEq

/-- The automation bridge: outcome of each script the module can run.
`Except.error` models a thrown exception. -/
structure Env where
  probeOutcome : Except String String
  enumOutcome : Except String EnumVal
  nameOutcome : String → Except String StrListVal
  phoneOutcome : String → Except String String

/-- Did the access probe succeed?  (`checkContactsAccess` body.) -/
def probeBool (env : Env) : Bool :=
  match env.probeOutcome with
  | Except.ok _ => true
  | Except.error _ => false

/-- `checkContactsAccess`: runs the probe script, returns `true` on success,
`false` on any error (the error never propagates). -/
def checkContactsAccess (env : Env) : Bool × List Query :=
  (probeBool env, [Query.accessProbe])

/-- JavaScript truthiness of a `phones` field value. -/
def phonesTruthy : Option ContactPhones → Bool
  | none => false
  | some (ContactPhones.one s) => s != ""
  | some (ContactPhones.many _) => true

/-- `Array.isArray(contact.phones) ? contact.phones : [contact.phones]`. -/
def phonesToList : Option ContactPhones → List String
  | none => []
  | some (ContactPhones.one s) => [s]
  | some (ContactPhones.many ss) => ss

/-- `Array.isArray(result) ? result : (result ? [result] : [])` for the
enumeration result (a record is always truthy). -/
def enumValToList : EnumVal → List ContactRec
  | EnumVal.nullv => []
  | EnumVal.single r => [r]
  | EnumVal.array rs => rs

/-- `Array.isArray(result) ? result : (result ? [result] : [])` for the
name-search result (an empty string is falsy). -/
def strValToList : StrListVal → List String
  | StrListVal.nullv => []
  | StrListVal.single s => if s = "" then [] else [s]
  | StrListVal.array ss => ss

/-- Name-to-phone-list mapping, in JavaScript object key order. -/
abbrev PhoneMap := List (String × List String)

/-- JavaScript `obj[k] = v`: overwrite in place if the key exists (keeping
its position), append otherwise. -/
def setKey : PhoneMap → String → List String → PhoneMap
  | [], k, v => [(k, v)]
  | (k', v') :: m, k, v =>
    if k' = k then (k, v) :: m else (k', v') :: setKey m k v

/-- Is a record accepted by `if (contact && contact.name && contact.phones)`? -/
def acceptedRec (c : ContactRec) : Bool :=
  c.name != "" && phonesTruthy c.phones

/-- One step of the conversion loop of `getAllNumbers` (lines 85–89). -/
def recStep (m : PhoneMap) (c : ContactRec) : PhoneMap :=
  if acceptedRec c then setKey m c.name (phonesToList c.phones) else m

/-- The conversion of the bulk-enumeration bridge result into the mapping
(lines 82–91 of the source). -/
def convertEnum (v : EnumVal) : PhoneMap :=
  (enumValToList v).foldl recStep []

/-- `getAllNumbers`: probe, then run the enumeration script and convert its
result; any script error is caught and resolved to the empty mapping. -/
def getAllNumbers (env : Env) : PhoneMap × List Query :=
  if probeBool env then
    match env.enumOutcome with
    | Except.ok v => (convertEnum v, [Query.accessProbe, Query.enumScriptQ])
    | Except.error _ => ([], [Query.accessProbe, Query.enumScriptQ])
  else ([], [Query.accessProbe])

/-- Association lookup on the mapping (the entry of a key, if present). -/
def getEntry : PhoneMap → String → Option (List String)
  | [], _ => none
  | (k', v') :: m, k => if k' = k then some v' else getEntry m k

/-- `allNumbers[closestMatch]` on the mapping. -/
def objectGet (m : PhoneMap) (k : String) : List String :=
  (getEntry m k).getD []

/-- `findNumber`: probe, blank-input check, targeted name script, and the
bulk-enumeration fallback when the targeted script returned no values
(lines 98–168 of the source). -/
def findNumber (env : Env) (name : String) : List String × List Query :=
  if probeBool env then
    if name = "" ∨ jsTrim name = "" then ([], [Query.accessProbe])
    else
      match env.nameOutcome (jsToLower name) with
      | Except.error _ => ([], [Query.accessProbe, Query.nameScriptQ (jsToLower name)])
      | Except.ok v =>
        if (strValToList v).length = 0 then
          match ((getAllNumbers env).1.map Prod.fst).find?
              (fun k => jsIncludes (jsToLower k) (jsToLower name)) with
          | some k =>
            ((if k = "" then [] else objectGet (getAllNumbers env).1 k),
              [Query.accessProbe, Query.nameScriptQ (jsToLower name)] ++ (getAllNumbers env).2)
          | none =>
            ([], [Query.accessProbe, Query.nameScriptQ (jsToLower name)] ++ (getAllNumbers env).2)
        else
          ((strValToList v).filter (fun p => p != "" && jsTrim p != ""),
            [Query.accessProbe, Query.nameScriptQ (jsToLower name)])
  else ([], [Query.accessProbe])

/-- The matching rule set of the reverse-phone fallback (lines 238–243):
exact, `+`-prefixed, `+1`-prefixed both ways, and substring both ways. -/
def phoneRule (searchNumber num : String) : Bool :=
  num == searchNumber ||
  num == "+" ++ searchNumber ||
  num == "+1" ++ searchNumber ||
  ("+1" ++ num) == searchNumber ||
  jsIncludes searchNumber num ||
  jsIncludes num searchNumber

/-- The `for (const [contactName, numbers] of Object.entries(allContacts))`
fallback loop of `findContactByPhone` (lines 235–247). -/
def fallbackLoop (searchNumber : String) : PhoneMap → Option String
  | [] => none
  | (contactName, numbers) :: rest =>
    if (numbers.map jsReplaceNonPhone).any (fun num => phoneRule searchNumber num) then
      some contactName
    else fallbackLoop searchNumber rest

/-- `findContactByPhone`: probe, blank check, normalization, targeted phone
script, and the normalized fallback over `getAllNumbers`
(lines 170–254 of the source). -/
def findContactByPhone (env : Env) (phoneNumber : String) : Option String × List Query :=
  if probeBool env then
    if phoneNumber = "" ∨ jsTrim phoneNumber = "" then (none, [Query.accessProbe])
    else
      match env.phoneOutcome (jsReplaceNonPhone phoneNumber) with
      | Except.error _ =>
        (none, [Query.accessProbe, Query.phoneScriptQ (jsReplaceNonPhone phoneNumber)])
      | Except.ok r =>
        if r ≠ "" ∧ jsTrim r ≠ "" then
          (some r, [Query.accessProbe, Query.phoneScriptQ (jsReplaceNonPhone phoneNumber)])
        else
          (fallbackLoop (jsReplaceNonPhone phoneNumber) (getAllNumbers env).1,
            [Query.accessProbe, Query.phoneScriptQ (jsReplaceNonPhone phoneNumber)]
              ++ (getAllNumbers env).2)
  else (none, [Query.accessProbe])

/-- A person in the external source, as the AppleScript loops see it:
reading the name may error, reading the phones list may error, and reading
each phone value may error (`on error` skips). -/
structure Person where
  name : Except Unit String
  phonesErr : Bool
  phones : List (Except Unit String)

/-- The inner phone loop of the enumeration script: keep each readable,
non-empty phone value. -/
def goodPhones (p : Person) : List String :=
  if p.phonesErr then []
  else p.phones.filterMap (fun e =>
    match e with
    | Except.ok v => if v = "" then none else some v
    | Except.error _ => none)

/-- The bulk-enumeration AppleScript (lines 33–77): add contacts that have
at least one phone, stopping once `MAX_CONTACTS` have been added. -/
def enumScriptGo : List Person → Nat → List ContactRec
  | [], _ => []
  | p :: ps, cnt =>
    if MAX_CONTACTS ≤ cnt then []
    else
      match p.name with
      | Except.error _ => enumScriptGo ps cnt
      | Except.ok nm =>
        if (goodPhones p).length > 0 then
          ⟨nm, some (ContactPhones.many (goodPhones p))⟩ :: enumScriptGo ps (cnt + 1)
        else enumScriptGo ps cnt

/-- Result of the bulk-enumeration script over a source. -/
def enumScript (ppl : List Person) : EnumVal :=
  EnumVal.array (enumScriptGo ppl 0)

/-- The name-search AppleScript (lines 110–149): scan at most the first
`MAX_CONTACTS` people, collecting phones of those whose stored name contains
the (already lowercased) search text. -/
def nameScriptGo (searchText : String) : List Person → Nat → List String
  | [], _ => []
  | p :: ps, i =>
    if MAX_CONTACTS < i then []
    else
      match p.name with
      | Except.error _ => nameScriptGo searchText ps (i + 1)
      | Except.ok nm =>
        if jsIncludes nm searchText then goodPhones p ++ nameScriptGo searchText ps (i + 1)
        else nameScriptGo searchText ps (i + 1)

/-- The inner loop of the phone-search AppleScript: first readable phone
value with bidirectional raw containment; reading the name inside the hit
branch may error, which skips that phone entry. -/
def phoneHitGo (searchPhone : String) (nm : Except Unit String) :
    List (Except Unit String) → Option String
  | [] => none
  | Except.error _ :: rest => phoneHitGo searchPhone nm rest
  | Except.ok v :: rest =>
    if jsIncludes v searchPhone || jsIncludes searchPhone v then
      match nm with
      | Except.ok n => some n
      | Except.error _ => phoneHitGo searchPhone nm rest
    else phoneHitGo searchPhone nm rest

/-- The phone-search AppleScript (lines 183–224): scan at most the first
`MAX_CONTACTS` people, stopping at the first non-empty found name. -/
def phoneScriptGo (searchPhone : String) : List Person → Nat → String
  | [], _ => ""
  | p :: ps, i =>
    if MAX_CONTACTS < i then ""
    else
      match (if p.phonesErr then none else phoneHitGo searchPhone p.name p.phones) with
      | some nm => if nm = "" then phoneScriptGo searchPhone ps (i + 1) else nm
      | none => phoneScriptGo searchPhone ps (i + 1)

/-- The bridge that faithfully executes the scripts of the module over a source. -/
def faithfulEnv (ppl : List Person) : Env where
  probeOutcome := Except.ok "Contacts"
  enumOutcome := Except.ok (enumScript ppl)
  nameOutcome := fun st => Except.ok (StrListVal.array (nameScriptGo st ppl 1))
  phoneOutcome := fun sp => Except.ok (phoneScriptGo sp ppl 1)

/-- Spec-side reverse-phone fallback, following the words of claim C1: the first
contact, in mapping order, having some phone value whose normalized form
satisfies at least one of the six rules; `none` when no contact matches. -/
def specFallbackPhone (m : PhoneMap) (searchNumber : String) : Option String :=
  (m.find? (fun kv =>
    kv.2.any (fun v => phoneRule searchNumber (jsReplaceNonPhone v)))).map Prod.fst

/-- Spec-side name-search fallback, following the words of claim C2: the full
phone list of the first contact whose lowercased name contains the
lowercased query; `[]` when no key matches. -/
def specFallbackName (m : PhoneMap) (searchName : String) : List String :=
  match m.find? (fun kv => jsIncludes (jsToLower kv.1) searchName) with
  | some kv => kv.2
  | none => []

/-- Spec-side normalization following the words of claim C3: strip all characters
except digits and a LEADING plus sign (a non-leading plus is stripped). -/
def specLeadingPlusNormalize (s : String) : String :=
  ⟨if s.data.head? = some '+' then '+' :: s.data.filter Char.isDigit
    else s.data.filter Char.isDigit⟩

/-- Amended-claim-side normalization: keep digits and every plus sign,
wherever it occurs. -/
def specKeepDigitsPlus : List Char → List Char
  | [] => []
  | c :: cs =>
    if c.isDigit = true ∨ c = '+' then c :: specKeepDigitsPlus cs
    else specKeepDigitsPlus cs

/-- The last element of a list satisfying a predicate. -/
def lastWith (p : α → Bool) : List α → Option α
  | [] => none
  | a :: as =>
    match lastWith p as with
    | some b => some b
    | none => if p a then some a else none

/-- Is an `Except` an error? -/
def isErrB : Except String α → Bool
  | Except.error _ => true
  | Except.ok _ => false

/-- The well-formedness predicate of claim C5, as stated (no empty and no
whitespace-only phone strings, no empty phone lists). -/
def wfClaimB (m : PhoneMap) : Bool :=
  m.all (fun kv => !kv.2.isEmpty && kv.2.all (fun p => p != "" && jsTrim p != ""))

/-- Bridge for the Jane Doe scenario of the spec, with the primary phone query
returning nothing (empty string). -/
def envJane : Env where
  probeOutcome := Except.ok "Contacts"
  enumOutcome := Except.ok (EnumVal.array [⟨"Jane Doe", some (ContactPhones.many ["+15551234"])⟩])
  nameOutcome := fun _ => Except.ok StrListVal.nullv
  phoneOutcome := fun _ => Except.ok ""

/-- Bridge for the John Smith scenario of the spec, with the targeted name query
returning no results. -/
def envSmith : Env where
  probeOutcome := Except.ok "Contacts"
  enumOutcome := Except.ok (EnumVal.array [⟨"John Smith", some (ContactPhones.many ["555-1234"])⟩])
  nameOutcome := fun _ => Except.ok StrListVal.nullv
  phoneOutcome := fun _ => Except.ok ""

/-- Bridge whose directory entry carries a whitespace-only phone string. -/
def envW : Env where
  probeOutcome := Except.ok "Contacts"
  enumOutcome := Except.ok
    (EnumVal.array [⟨"John Smith", some (ContactPhones.many ["555-1234", " "])⟩])
  nameOutcome := fun _ => Except.ok StrListVal.nullv
  phoneOutcome := fun _ => Except.ok ""

/-- Bridge whose directory entry has a stored phone with a non-leading plus. -/
def envC3 : Env where
  probeOutcome := Except.ok "Contacts"
  enumOutcome := Except.ok (EnumVal.array [⟨"X", some (ContactPhones.many ["12+34"])⟩])
  nameOutcome := fun _ => Except.ok StrListVal.nullv
  phoneOutcome := fun _ => Except.ok ""

/-- Fully successful bridge with an empty directory. -/
def envOk : Env where
  probeOutcome := Except.ok "Contacts"
  enumOutcome := Except.ok EnumVal.nullv
  nameOutcome := fun _ => Except.ok StrListVal.nullv
  phoneOutcome := fun _ => Except.ok ""

/-- Bridge whose access probe fails. -/
def envDenied : Env where
  probeOutcome := Except.error "denied"
  enumOutcome := Except.ok EnumVal.nullv
  nameOutcome := fun _ => Except.ok StrListVal.nullv
  phoneOutcome := fun _ => Except.ok ""

/-- Bridge whose probe succeeds but every script throws. -/
def envBoom : Env where
  probeOutcome := Except.ok "Contacts"
  enumOutcome := Except.error "boom"
  nameOutcome := fun _ => Except.error "boom"
  phoneOutcome := fun _ => Except.error "boom"

/-- Two records with the same name, different phone lists. -/
def rsBob : List ContactRec :=
  [⟨"Bob", some (ContactPhones.many ["111"])⟩, ⟨"Bob", some (ContactPhones.many ["222"])⟩]

/-- Bridge returning the duplicate-name records. -/
def envBob : Env where
  probeOutcome := Except.ok "Contacts"
  enumOutcome := Except.ok (EnumVal.array rsBob)
  nameOutcome := fun _ => Except.ok StrListVal.nullv
  phoneOutcome := fun _ => Except.ok ""

/-- A one-person source with an ordinary phone value. -/
def ppl1 : List Person := [⟨Except.ok "A", false, [Except.ok "1"]⟩]

/-- A one-person source whose phone value is whitespace-only. -/
def pplWS : List Person := [⟨Except.ok "A", false, [Except.ok " "]⟩]

lemma ne_empty_of_jsTrim_ne (s : String) (h : jsTrim s ≠ "") : s ≠ "" := by
  intro hs
  exact h (by rw [hs]; rfl)

lemma data_eq_nil_iff (s : String) : s.data = [] ↔ s = "" := by
  constructor
  · intro h
    cases s with
    | mk l => cases h; rfl
  · intro h
    rw [h]

lemma jsToLower_ne_empty (s : String) (h : s ≠ "") : jsToLower s ≠ "" := by
  intro hl
  apply h
  have hd : (jsToLower s).data = [] := (data_eq_nil_iff _).mpr hl
  have : s.data.map lowerChar = [] := hd
  rw [List.map_eq_nil_iff] at this
  exact (data_eq_nil_iff s).mp this

lemma jsIncludes_empty_left (t : String) (h : t ≠ "") : jsIncludes "" t = false := by
  have hd : t.data ≠ [] := fun hd => h ((data_eq_nil_iff t).mp hd)
  show listIncludes ("" : String).data t.data = false
  cases ht : t.data with
  | nil => exact absurd ht hd
  | cons c cs => rfl

lemma getEntry_setKey (m : PhoneMap) (k : String) (v : List String) (n : String) :
    getEntry (setKey m k v) n = if k = n then some v else getEntry m n := by
  induction m with
  | nil =>
    by_cases hn : k = n
    · simp [setKey, getEntry, hn]
    · simp [setKey, getEntry, hn]
  | cons kv m ih =>
    obtain ⟨k', v'⟩ := kv
    by_cases hk : k' = k
    · subst hk
      by_cases hn : k' = n
      · simp [setKey, getEntry, hn]
      · simp [setKey, getEntry, hn]
    · by_cases hn : k' = n
      · have hkn : ¬ k = n := fun h => hk (hn.trans h.symm)
        simp only [setKey, if_neg hk, getEntry, if_pos hn, if_neg hkn]
      · simp [setKey, getEntry, hk, hn, ih]

lemma setKey_length (m : PhoneMap) (k : String) (v : List String) :
    (setKey m k v).length ≤ m.length + 1 := by
  induction m with
  | nil => simp [setKey]
  | cons kv m ih =>
    obtain ⟨k', v'⟩ := kv
    by_cases hk : k' = k
    · simp [setKey, hk]
    · simp only [setKey, if_neg hk, List.length_cons]
      omega

lemma setKey_mem (m : PhoneMap) (k : String) (v : List String)
    (kv : String × List String) (h : kv ∈ setKey m k v) : kv ∈ m ∨ kv = (k, v) := by
  induction m with
  | nil => simp [setKey] at h; simp [h]
  | cons e m ih =>
    obtain ⟨k', v'⟩ := e
    by_cases hk : k' = k
    · simp only [setKey, if_pos hk] at h
      rcases List.mem_cons.mp h with h1 | h2
      · exact Or.inr h1
      · exact Or.inl (List.mem_cons_of_mem _ h2)
    · simp only [setKey, if_neg hk] at h
      rcases List.mem_cons.mp h with h1 | h2
      · exact Or.inl (h1 ▸ List.mem_cons_self _ _)
      · rcases ih h2 with h3 | h4
        · exact Or.inl (List.mem_cons_of_mem _ h3)
        · exact Or.inr h4

lemma recStep_length (m : PhoneMap) (c : ContactRec) :
    (recStep m c).length ≤ m.length + 1 := by
  unfold recStep
  split
  · exact setKey_length m c.name (phonesToList c.phones)
  · omega

lemma foldl_recStep_length :
    ∀ (rs : List ContactRec) (m : PhoneMap),
      (rs.foldl recStep m).length ≤ m.length + rs.length := by
  intro rs
  induction rs with
  | nil => intro m; simp
  | cons r rs ih =>
    intro m
    have h1 := ih (recStep m r)
    have h2 := recStep_length m r
    simp only [List.foldl_cons, List.length_cons]
    omega

lemma foldl_recStep_mem (Q : String × List String → Prop) :
    ∀ (rs : List ContactRec) (m : PhoneMap),
      (∀ kv ∈ m, Q kv) →
      (∀ r ∈ rs, acceptedRec r = true → Q (r.name, phonesToList r.phones)) →
      ∀ kv ∈ rs.foldl recStep m, Q kv := by
  intro rs
  induction rs with
  | nil => intro m hm _ kv hkv; exact hm kv hkv
  | cons r rs ih =>
    intro m hm hr kv hkv
    refine ih (recStep m r) ?_ (fun r' h' => hr r' (List.mem_cons_of_mem _ h')) kv hkv
    intro e he
    unfold recStep at he
    by_cases hacc : acceptedRec r = true
    · rw [if_pos hacc] at he
      rcases setKey_mem m r.name (phonesToList r.phones) e he with h1 | h2
      · exact hm e h1
      · rw [h2]
        exact hr r (List.mem_cons_self _ _) hacc
    · rw [if_neg hacc] at he
      exact hm e he

lemma lastWith_congr (p q : α → Bool) (l : List α) (h : ∀ a ∈ l, p a = q a) :
    lastWith p l = lastWith q l := by
  induction l with
  | nil => rfl
  | cons a l ih =>
    simp only [lastWith]
    rw [ih (fun b hb => h b (List.mem_cons_of_mem _ hb)), h a (List.mem_cons_self _ _)]

lemma getEntry_foldl_recStep :
    ∀ (rs : List ContactRec) (m : PhoneMap) (n : String),
      getEntry (rs.foldl recStep m) n =
        match lastWith (fun r => acceptedRec r && r.name == n) rs with
        | some c => some (phonesToList c.phones)
        | none => getEntry m n := by
  intro rs
  induction rs with
  | nil => intro m n; rfl
  | cons r rs ih =>
    intro m n
    simp only [List.foldl_cons, lastWith]
    rw [ih (recStep m r) n]
    cases hl : lastWith (fun r => acceptedRec r && r.name == n) rs with
    | some c => rfl
    | none =>
      by_cases hq : (acceptedRec r && r.name == n) = true
      · simp only [hq, if_pos]
        have hsplit : acceptedRec r = true ∧ (r.name == n) = true := by
          rw [← Bool.and_eq_true]
          exact hq
        have hacc : acceptedRec r = true := hsplit.1
        have hname : r.name = n := eq_of_beq hsplit.2
        unfold recStep
        rw [if_pos hacc, getEntry_setKey, if_pos hname]
      · simp only [hq]
        rw [if_neg (by simp [hq])]
        unfold recStep
        by_cases hacc : acceptedRec r = true
        · rw [if_pos hacc, getEntry_setKey]
          have hname : ¬ r.name = n := by
            intro h
            apply hq
            rw [Bool.and_eq_true]
            exact ⟨hacc, beq_iff_eq.mpr h⟩
          rw [if_neg hname]
        · rw [if_neg hacc]

lemma mem_goodPhones (p : Person) (v : String) (h : v ∈ goodPhones p) : v ≠ "" := by
  unfold goodPhones at h
  by_cases hpe : p.phonesErr = true
  · rw [if_pos hpe] at h
    cases h
  · rw [if_neg hpe] at h
    obtain ⟨e, _, he⟩ := List.mem_filterMap.mp h
    cases e with
    | ok w =>
      have he' : (if w = "" then none else some w : Option String) = some v := he
      by_cases hw : w = ""
      · rw [if_pos hw] at he'
        cases he'
      · rw [if_neg hw] at he'
        cases he'
        exact hw
    | error u => cases he

lemma enumScriptGo_length :
    ∀ (ppl : List Person) (cnt : Nat),
      (enumScriptGo ppl cnt).length ≤ MAX_CONTACTS - cnt := by
  intro ppl
  induction ppl with
  | nil => intro cnt; simp [enumScriptGo]
  | cons p ps ih =>
    intro cnt
    unfold enumScriptGo
    by_cases hc : MAX_CONTACTS ≤ cnt
    · simp [hc]
    · rw [if_neg hc]
      cases hn : p.name with
      | error u => exact ih cnt
      | ok nm =>
        dsimp only
        by_cases hl : (goodPhones p).length > 0
        · rw [if_pos hl]
          have := ih (cnt + 1)
          simp only [List.length_cons]
          omega
        · rw [if_neg hl]
          exact ih cnt

lemma enumScriptGo_rec_prop :
    ∀ (ppl : List Person) (cnt : Nat) (r : ContactRec),
      r ∈ enumScriptGo ppl cnt →
      ∃ pp, r.phones = some (ContactPhones.many pp) ∧ pp ≠ [] ∧ ∀ v ∈ pp, v ≠ "" := by
  intro ppl
  induction ppl with
  | nil => intro cnt r h; cases h
  | cons p ps ih =>
    intro cnt r h
    unfold enumScriptGo at h
    by_cases hc : MAX_CONTACTS ≤ cnt
    · rw [if_pos hc] at h
      cases h
    · rw [if_neg hc] at h
      cases hn : p.name with
      | error u => rw [hn] at h; exact ih cnt r h
      | ok nm =>
        rw [hn] at h
        dsimp only at h
        by_cases hl : (goodPhones p).length > 0
        · rw [if_pos hl] at h
          rcases List.mem_cons.mp h with h1 | h2
          · refine ⟨goodPhones p, by rw [h1], ?_, fun v hv => mem_goodPhones p v hv⟩
            intro hnil
            rw [hnil] at hl
            simp at hl
          · exact ih (cnt + 1) r h2
        · rw [if_neg hl] at h
          exact ih cnt r h

lemma findKeys_eq (m : PhoneMap) (p : String → Bool) :
    (m.map Prod.fst).find? p = (m.find? (fun kv => p kv.1)).map Prod.fst := by
  induction m with
  | nil => rfl
  | cons kv m ih =>
    by_cases h : p kv.1 = true
    · rw [List.map_cons]
      rw [show List.find? p (kv.1 :: List.map Prod.fst m) = some kv.1 from
        List.find?_cons_of_pos _ h]
      rw [show List.find? (fun kv => p kv.1) (kv :: m) = some kv from
        List.find?_cons_of_pos _ h]
      rfl
    · rw [List.map_cons]
      rw [show List.find? p (kv.1 :: List.map Prod.fst m) = List.find? p (List.map Prod.fst m) from
        List.find?_cons_of_neg _ h]
      rw [show List.find? (fun kv => p kv.1) (kv :: m) = List.find? (fun kv => p kv.1) m from
        List.find?_cons_of_neg _ h]
      exact ih

lemma objectGet_of_find? (m : PhoneMap) (p : String → Bool) (kv : String × List String)
    (h : m.find? (fun e => p e.1) = some kv) : objectGet m kv.1 = kv.2 := by
  induction m with
  | nil => cases h
  | cons e m ih =>
    by_cases hp : p e.1 = true
    · have hf : List.find? (fun e => p e.1) (e :: m) = some e :=
        List.find?_cons_of_pos _ hp
      rw [hf] at h
      cases h
      simp [objectGet, getEntry]
    · have hf : List.find? (fun e => p e.1) (e :: m) = List.find? (fun e => p e.1) m :=
        List.find?_cons_of_neg _ hp
      rw [hf] at h
      have hkv := List.find?_some h
      have hne : ¬ e.1 = kv.1 := by
        intro heq
        rw [heq] at hp
        exact hp hkv
      obtain ⟨k', v'⟩ := e
      simp only [objectGet, getEntry, if_neg hne]
      exact ih h

lemma fallbackLoop_eq_spec (m : PhoneMap) (s : String) :
    fallbackLoop s m = specFallbackPhone m s := by
  induction m with
  | nil => rfl
  | cons kv m ih =>
    obtain ⟨k, vs⟩ := kv
    have hpred : ((k, vs).2.any (fun v => phoneRule s (jsReplaceNonPhone v)))
        = (vs.map jsReplaceNonPhone).any (fun num => phoneRule s num) := by
      simp [List.any_map, Function.comp_def]
    by_cases h : (vs.map jsReplaceNonPhone).any (fun num => phoneRule s num) = true
    · have hf : List.find? (fun kv : String × List String =>
          kv.2.any (fun v => phoneRule s (jsReplaceNonPhone v))) ((k, vs) :: m)
          = some (k, vs) :=
        List.find?_cons_of_pos _ (hpred.trans h)
      show (if (vs.map jsReplaceNonPhone).any (fun num => phoneRule s num) = true
          then some k else fallbackLoop s m) = specFallbackPhone ((k, vs) :: m) s
      rw [if_pos h]
      unfold specFallbackPhone
      rw [hf]
      rfl
    · have hb : ¬ ((fun kv : String × List String =>
          kv.2.any (fun v => phoneRule s (jsReplaceNonPhone v))) (k, vs) = true) := by
        intro hx
        exact h (hpred.symm.trans hx)
      have hf : List.find? (fun kv : String × List String =>
          kv.2.any (fun v => phoneRule s (jsReplaceNonPhone v))) ((k, vs) :: m)
          = List.find? (fun kv : String × List String =>
          kv.2.any (fun v => phoneRule s (jsReplaceNonPhone v))) m :=
        List.find?_cons_of_neg _ hb
      show (if (vs.map jsReplaceNonPhone).any (fun num => phoneRule s num) = true
          then some k else fallbackLoop s m) = specFallbackPhone ((k, vs) :: m) s
      rw [if_neg h, ih]
      unfold specFallbackPhone
      rw [hf]

lemma findNumber_fallback_eq (env : Env) (name : String) (v : StrListVal)
    (hp : probeBool env = true) (hb : jsTrim name ≠ "")
    (hq : env.nameOutcome (jsToLower name) = Except.ok v)
    (he : strValToList v = []) :
    (findNumber env name).1 = specFallbackName (getAllNumbers env).1 (jsToLower name) := by
  have hn : name ≠ "" := ne_empty_of_jsTrim_ne name hb
  have hlow : jsToLower name ≠ "" := jsToLower_ne_empty name hn
  unfold findNumber
  rw [hp]
  rw [if_pos rfl, if_neg (not_or.mpr ⟨hn, hb⟩), hq]
  dsimp only
  rw [he]
  rw [if_pos (show ([] : List String).length = 0 from rfl)]
  rw [findKeys_eq (getAllNumbers env).1 (fun k => jsIncludes (jsToLower k) (jsToLower name))]
  cases hfind : (getAllNumbers env).1.find?
      (fun kv => jsIncludes (jsToLower kv.1) (jsToLower name)) with
  | none =>
    unfold specFallbackName
    rw [hfind]
    rfl
  | some kv =>
    have hkp0 := List.find?_some hfind
    have hkp : jsIncludes (jsToLower kv.1) (jsToLower name) = true := hkp0
    have hk1 : ¬ kv.1 = "" := by
      intro h0
      rw [h0] at hkp
      rw [show jsToLower ("" : String) = "" from rfl] at hkp
      rw [jsIncludes_empty_left (jsToLower name) hlow] at hkp
      cases hkp
    show (if kv.1 = "" then [] else objectGet (getAllNumbers env).1 kv.1)
        = specFallbackName (getAllNumbers env).1 (jsToLower name)
    rw [if_neg hk1]
    unfold specFallbackName
    rw [hfind]
    exact objectGet_of_find? (getAllNumbers env).1
      (fun k => jsIncludes (jsToLower k) (jsToLower name)) kv hfind

/-- Claim C1: for every phone-number input on which the primary targeted
query yields nothing (a blank string result), `findContactByPhone` returns
the name of the first contact, in bulk-enumeration order, having some phone
value whose normalized form satisfies at least one of the six matching
rules (`specFallbackPhone` states exactly this policy, `phoneRule` the six
rules), and `none` when no contact matches. -/
theorem c1_fallback (env : Env) (p r : String)
    (hp : probeBool env = true) (hb : jsTrim p ≠ "")
    (hq : env.phoneOutcome (jsReplaceNonPhone p) = Except.ok r)
    (hr : jsTrim r = "") :
    (findContactByPhone env p).1
      = specFallbackPhone (getAllNumbers env).1 (jsReplaceNonPhone p) := by
  have hn : p ≠ "" := ne_empty_of_jsTrim_ne p hb
  unfold findContactByPhone
  rw [hp]
  rw [if_pos rfl, if_neg (not_or.mpr ⟨hn, hb⟩), hq]
  dsimp only
  rw [if_neg (fun hand => hand.2 hr)]
  exact fallbackLoop_eq_spec (getAllNumbers env).1 (jsReplaceNonPhone p)

/-- Witness for C1: the example from the spec — `findContactByPhone("555-1234")`
against the directory entry `"Jane Doe": ["+15551234"]`, with the primary
query returning nothing, yields `"Jane Doe"`. -/
theorem c1_witness : (findContactByPhone envJane "555-1234").1 = some "Jane Doe" := by
  rw [c1_fallback envJane "555-1234" "" (by rfl) (by decide) (by rfl) (by rfl)]
  decide

/-- Claim C2: for every name input on which the targeted query yields zero
results, `findNumber` scans the bulk-enumeration keys in enumeration order
and returns the full phone list of the first contact whose lower-cased name
contains the lower-cased query, or an empty list if no key matches
(`specFallbackName` states exactly this policy, so no merging across
entries can occur). -/
theorem c2_fallback (env : Env) (name : String) (v : StrListVal)
    (hp : probeBool env = true) (hb : jsTrim name ≠ "")
    (hq : env.nameOutcome (jsToLower name) = Except.ok v)
    (he : strValToList v = []) :
    (findNumber env name).1 = specFallbackName (getAllNumbers env).1 (jsToLower name) :=
  findNumber_fallback_eq env name v hp hb hq he

/-- Witness for C2: the example from the spec — `findNumber("Smith")` with the
directory `{"John Smith": ["555-1234"]}` and no direct-query match returns
`["555-1234"]`, matching case-insensitively on the substring "smith". -/
theorem c2_witness : (findNumber envSmith "Smith").1 = ["555-1234"] := by
  rw [c2_fallback envSmith "Smith" StrListVal.nullv (by rfl) (by decide) (by rfl) (by rfl)]
  decide

/-- Counterexample to C3: the claim says the normalization strips a
non-leading plus sign, but the `replace` call of the code keeps every
plus sign: on `"12+34"` the code produces `"12+34"` while the claimed
normalization produces `"1234"`; consequently `findContactByPhone` does not
match the stored value `"12+34"` against the input `"1234"` (it would match
under the claimed normalization). -/
theorem c3_counterexample :
    jsReplaceNonPhone "12+34" = "12+34" ∧
    specLeadingPlusNormalize "12+34" = "1234" ∧
    jsReplaceNonPhone "12+34" ≠ specLeadingPlusNormalize "12+34" ∧
    (findContactByPhone envC3 "1234").1 = none := by
  decide

/-- Claim C3 (amended): the normalization used by `findContactByPhone`
(on the input and on every stored phone value in the fallback) produces the
string obtained by stripping all characters except digits and plus signs —
every plus sign is kept, wherever it occurs, not only a leading one. -/
theorem c3_amended :
    (∀ s : String, (jsReplaceNonPhone s).data = specKeepDigitsPlus s.data) ∧
    jsReplaceNonPhone "12+34" = "12+34" := by
  constructor
  · intro s
    show s.data.filter keepChar = specKeepDigitsPlus s.data
    induction s.data with
    | nil => rfl
    | cons c cs ih =>
      by_cases h : c.isDigit = true ∨ c = '+'
      · have hb : keepChar c = true := by
          rcases h with h | h
          · simp [keepChar, h]
          · simp [keepChar, h]
        simp only [List.filter_cons, specKeepDigitsPlus, hb, if_pos h, if_true, ih]
      · have hb : keepChar c = false := by
          push_neg at h
          have h1 : c.isDigit = false := by
            cases hd : c.isDigit
            · rfl
            · exact absurd hd h.1
          simp [keepChar, h1, h.2]
        simp only [List.filter_cons, specKeepDigitsPlus, hb, if_neg h,
          Bool.false_eq_true, if_false, ih]
  · decide

/-- Counterexample to C4: on the whitespace-only input `" "`, `findNumber`
does return `[]`, but the access-check probe IS issued before returning
(the claim asserts that no query of any kind, including the probe, is
issued). -/
theorem c4_counterexample :
    (findNumber envOk " ").1 = [] ∧
    (findNumber envOk " ").2 ≠ [] ∧
    Query.accessProbe ∈ (findNumber envOk " ").2 := by
  decide

/-- Claim C4 (amended): for every input that is empty or whitespace-only
after trimming, `findNumber` returns `[]` and `findContactByPhone` returns
`none`, and no targeted or bulk query is issued — the only query issued is
the access-check probe, which runs before the blank-input check. -/
theorem c4_blank (env : Env) (s : String) (h : jsTrim s = "") :
    (findNumber env s).1 = [] ∧ (findContactByPhone env s).1 = none ∧
    (findNumber env s).2 = [Query.accessProbe] ∧
    (findContactByPhone env s).2 = [Query.accessProbe] := by
  have hor : s = "" ∨ jsTrim s = "" := Or.inr h
  have hfn : findNumber env s = ([], [Query.accessProbe]) := by
    unfold findNumber
    cases hb : probeBool env
    · rfl
    · rw [if_pos rfl, if_pos hor]
  have hfc : findContactByPhone env s = (none, [Query.accessProbe]) := by
    unfold findContactByPhone
    cases hb : probeBool env
    · rfl
    · rw [if_pos rfl, if_pos hor]
  rw [hfn, hfc]
  exact ⟨rfl, rfl, rfl, rfl⟩

/-- Witness for C4 (amended): blank input `" "` on a fully working bridge. -/
theorem c4_witness :
    (findNumber envOk " ").1 = [] ∧ (findContactByPhone envOk " ").1 = none ∧
    (findNumber envOk " ").2 = [Query.accessProbe] ∧
    (findContactByPhone envOk " ").2 = [Query.accessProbe] :=
  c4_blank envOk " " (by decide)

/-- Counterexample to C5: a source whose only contact stores the
whitespace-only phone `" "` makes `getAllNumbers` return a mapping with a
whitespace-only phone string, violating the claimed well-formedness
(`wfClaimB` is the predicate of the claim). -/
theorem c5_counterexample :
    (getAllNumbers (faithfulEnv pplWS)).1 = [("A", [" "])] ∧
    wfClaimB (getAllNumbers (faithfulEnv pplWS)).1 = false ∧
    jsTrim " " = "" := by
  decide

/-- Claim C5 (amended): for every source, every contact entry of the
mapping returned by `getAllNumbers` has a non-empty phone list and no phone
string in any entry is empty — but phone strings may be whitespace-only,
since the script filters only the exactly-empty value. -/
theorem c5_wellformed (ppl : List Person) (kv : String × List String)
    (hm : kv ∈ (getAllNumbers (faithfulEnv ppl)).1) :
    kv.2 ≠ [] ∧ ∀ p ∈ kv.2, p ≠ "" := by
  have hga : (getAllNumbers (faithfulEnv ppl)).1 = (enumScriptGo ppl 0).foldl recStep [] := rfl
  rw [hga] at hm
  refine foldl_recStep_mem (fun kv => kv.2 ≠ [] ∧ ∀ p ∈ kv.2, p ≠ "")
    (enumScriptGo ppl 0) [] (by intro kv h; cases h) ?_ kv hm
  intro r hr _
  obtain ⟨pp, hph, hne, hv⟩ := enumScriptGo_rec_prop ppl 0 r hr
  constructor
  · show phonesToList r.phones ≠ []
    rw [hph]
    exact hne
  · show ∀ p ∈ phonesToList r.phones, p ≠ ""
    rw [hph]
    exact hv

/-- Witness for C5 (amended): the single entry produced from a one-person
source has a non-empty list of non-empty phones. -/
theorem c5_witness :
    (("A", ["1"]) : String × List String).2 ≠ [] ∧
    ∀ p ∈ (("A", ["1"]) : String × List String).2, p ≠ "" :=
  c5_wellformed ppl1 ("A", ["1"]) (by decide)

/-- Claim C6: for every source, the mapping returned by `getAllNumbers`
contains at most the configured maximum number of entries, and that
configured maximum (`CONFIG.MAX_CONTACTS`) is 100. -/
theorem c6_bound (ppl : List Person) :
    ((getAllNumbers (faithfulEnv ppl)).1).length ≤ MAX_CONTACTS ∧ MAX_CONTACTS = 100 := by
  refine ⟨?_, rfl⟩
  have hga : (getAllNumbers (faithfulEnv ppl)).1 = (enumScriptGo ppl 0).foldl recStep [] := rfl
  rw [hga]
  have h1 := foldl_recStep_length (enumScriptGo ppl 0) []
  have h2 := enumScriptGo_length ppl 0
  simp only [List.length_nil] at h1
  omega

/-- Witness for C6: the bound evaluated on a concrete one-person source. -/
theorem c6_witness :
    ((getAllNumbers (faithfulEnv ppl1)).1).length ≤ MAX_CONTACTS ∧ MAX_CONTACTS = 100 :=
  c6_bound ppl1

/-- Claim C7: every public operation issues the access probe first, and
whenever the access check fails, each operation returns its empty/null
value with no query other than the probe issued (so in particular no main
query), without throwing. -/
theorem c7_access_first (env : Env) (name phone : String) :
    ((getAllNumbers env).2.head? = some Query.accessProbe ∧
      (findNumber env name).2.head? = some Query.accessProbe ∧
      (findContactByPhone env phone).2.head? = some Query.accessProbe) ∧
    (probeBool env = false →
      (getAllNumbers env).1 = [] ∧ (findNumber env name).1 = [] ∧
      (findContactByPhone env phone).1 = none ∧
      (getAllNumbers env).2 = [Query.accessProbe] ∧
      (findNumber env name).2 = [Query.accessProbe] ∧
      (findContactByPhone env phone).2 = [Query.accessProbe]) := by
  constructor
  · refine ⟨?_, ?_, ?_⟩
    · unfold getAllNumbers
      repeat' (first | rfl | split)
    · unfold findNumber
      repeat' (first | rfl | split)
    · unfold findContactByPhone
      repeat' (first | rfl | split)
  · intro hb
    have h1 : getAllNumbers env = ([], [Query.accessProbe]) := by
      unfold getAllNumbers
      rw [hb]
      rfl
    have h2 : findNumber env name = ([], [Query.accessProbe]) := by
      unfold findNumber
      rw [hb]
      rfl
    have h3 : findContactByPhone env phone = (none, [Query.accessProbe]) := by
      unfold findContactByPhone
      rw [hb]
      rfl
    rw [h1, h2, h3]
    exact ⟨rfl, rfl, rfl, rfl, rfl, rfl⟩

/-- Witness for C7: a bridge whose probe fails. -/
theorem c7_witness :
    (((getAllNumbers envDenied).2.head? = some Query.accessProbe ∧
      (findNumber envDenied "x").2.head? = some Query.accessProbe ∧
      (findContactByPhone envDenied "1").2.head? = some Query.accessProbe)) ∧
    ((getAllNumbers envDenied).1 = [] ∧ (findNumber envDenied "x").1 = [] ∧
      (findContactByPhone envDenied "1").1 = none ∧
      (getAllNumbers envDenied).2 = [Query.accessProbe] ∧
      (findNumber envDenied "x").2 = [Query.accessProbe] ∧
      (findContactByPhone envDenied "1").2 = [Query.accessProbe]) :=
  ⟨(c7_access_first envDenied "x" "1").1, (c7_access_first envDenied "x" "1").2 rfl⟩

/-- Claim C8: the operations are total functions into plain result types
(no exception escapes them by construction of the embedding), and whenever
the bridge throws on the main scripts, each operation resolves to its
benign empty value: `[]` for the mapping, `[]` for the list, `none` for the
name. -/
theorem c8_bridge_errors (env : Env) (name phone : String)
    (h1 : isErrB env.enumOutcome = true)
    (h2 : isErrB (env.nameOutcome (jsToLower name)) = true)
    (h3 : isErrB (env.phoneOutcome (jsReplaceNonPhone phone)) = true) :
    (getAllNumbers env).1 = [] ∧ (findNumber env name).1 = [] ∧
    (findContactByPhone env phone).1 = none := by
  obtain ⟨e1, he1⟩ : ∃ e, env.enumOutcome = Except.error e := by
    cases he : env.enumOutcome with
    | ok a => rw [he] at h1; cases h1
    | error e => exact ⟨e, rfl⟩
  obtain ⟨e2, he2⟩ : ∃ e, env.nameOutcome (jsToLower name) = Except.error e := by
    cases he : env.nameOutcome (jsToLower name) with
    | ok a => rw [he] at h2; cases h2
    | error e => exact ⟨e, rfl⟩
  obtain ⟨e3, he3⟩ : ∃ e, env.phoneOutcome (jsReplaceNonPhone phone) = Except.error e := by
    cases he : env.phoneOutcome (jsReplaceNonPhone phone) with
    | ok a => rw [he] at h3; cases h3
    | error e => exact ⟨e, rfl⟩
  refine ⟨?_, ?_, ?_⟩
  · unfold getAllNumbers
    cases hb : probeBool env
    · rfl
    · rw [he1]
      rfl
  · unfold findNumber
    cases hb : probeBool env
    · rfl
    · rw [if_pos rfl]
      by_cases hbl : name = "" ∨ jsTrim name = ""
      · rw [if_pos hbl]
      · rw [if_neg hbl, he2]
  · unfold findContactByPhone
    cases hb : probeBool env
    · rfl
    · rw [if_pos rfl]
      by_cases hbl : phone = "" ∨ jsTrim phone = ""
      · rw [if_pos hbl]
      · rw [if_neg hbl, he3]

/-- Witness for C8: a bridge whose probe succeeds but all scripts throw. -/
theorem c8_witness :
    (getAllNumbers envBoom).1 = [] ∧ (findNumber envBoom "x").1 = [] ∧
    (findContactByPhone envBoom "1").1 = none :=
  c8_bridge_errors envBoom "x" "1" (by rfl) (by rfl) (by rfl)

/-- Claim C9: for every bridge result consisting of well-formed contact
records, two or more of which may share a name, the mapping built by
`getAllNumbers` collapses same-named records into a single entry whose
phone list is that of the last such record in the order of the result
(last-write-wins). -/
theorem c9_last_write_wins (env : Env) (rs : List ContactRec) (n : String) (c : ContactRec)
    (hp : probeBool env = true)
    (henum : env.enumOutcome = Except.ok (EnumVal.array rs))
    (hacc : ∀ r ∈ rs, acceptedRec r = true)
    (hlast : lastWith (fun r => r.name == n) rs = some c) :
    getEntry (getAllNumbers env).1 n = some (phonesToList c.phones) := by
  have hga : (getAllNumbers env).1 = rs.foldl recStep [] := by
    unfold getAllNumbers
    rw [hp, if_pos rfl, henum]
    rfl
  rw [hga, getEntry_foldl_recStep]
  rw [lastWith_congr (fun r => acceptedRec r && r.name == n) (fun r => r.name == n) rs
    (fun r hr => by
      show (acceptedRec r && (r.name == n)) = (r.name == n)
      rw [hacc r hr, Bool.true_and])]
  rw [hlast]

/-- Witness for C9: two records named "Bob"; the mapping keeps the phones
of the second (last) one. -/
theorem c9_witness : getEntry (getAllNumbers envBob).1 "Bob" = some ["222"] :=
  c9_last_write_wins envBob rsBob "Bob" ⟨"Bob", some (ContactPhones.many ["222"])⟩
    (by rfl) (by rfl) (by decide) (by decide)

/-- Claim C10: the non-blank filter is applied only on the direct-query
path — when `findNumber` answers via the fallback, it returns the matched
stored phone list of the matched contact exactly as produced by the bulk enumeration,
without re-filtering (the witness exhibits a whitespace-only phone string
flowing through unchanged). -/
theorem c10_no_refilter (env : Env) (name : String) (v : StrListVal)
    (kv : String × List String)
    (hp : probeBool env = true) (hb : jsTrim name ≠ "")
    (hq : env.nameOutcome (jsToLower name) = Except.ok v)
    (he : strValToList v = [])
    (hfind : (getAllNumbers env).1.find?
      (fun e => jsIncludes (jsToLower e.1) (jsToLower name)) = some kv) :
    (findNumber env name).1 = kv.2 := by
  rw [findNumber_fallback_eq env name v hp hb hq he]
  unfold specFallbackName
  rw [hfind]

/-- Witness for C10: the matched entry stores `["555-1234", " "]`; the
fallback returns it verbatim, whitespace-only entry included. -/
theorem c10_witness :
    jsTrim " " = "" ∧ (findNumber envW "smith").1 = ["555-1234", " "] := by
  constructor
  · decide
  · exact c10_no_refilter envW "smith" StrListVal.nullv ("John Smith", ["555-1234", " "])
      (by rfl) (by decide) (by rfl) (by rfl) (by decide)

end Contacts
